import Mathlib

/-!
Shallow embedding of the model-resolution core of
`src/utils/update_librechat_config.py` (LibreChat configuration updater),
together with theorems checking the specification's claims about it.

Strings are modelled as Lean `String`; Python string primitives
(`split`, `strip`, `startswith`, `endswith`, `in`, `<`) are embedded as
executable functions over the underlying character lists, compared by
Unicode code point exactly as Python compares them.  Python `None` becomes
`Option.none`, and Python truthiness of optional strings (`if not x:`)
is embedded explicitly, since `None` and `""` are both falsy.
-/

namespace LibreChat

/-- Lexicographic comparison of character lists by Unicode code point;
this is the ordering Python uses for `model > latest_model` on strings. -/
def charListLt : List Char → List Char → Bool
  | [], [] => false
  | [], _ :: _ => true
  | _ :: _, [] => false
  | a :: as, b :: bs =>
    if a.toNat < b.toNat then true
    else if b.toNat < a.toNat then false
    else charListLt as bs

/-- Python `s1 < s2` on strings (code-point lexicographic order). -/
def strLt (a b : String) : Bool := charListLt a.data b.data

/-- Python `s.endswith(suf)`. -/
def strEndsWith (s suf : String) : Bool := List.isSuffixOf suf.data s.data

/-- Python `s.startswith(pre)`. -/
def strStartsWith (s pre : String) : Bool := List.isPrefixOf pre.data s.data

/-- Contiguous-sublist test on character lists; `charListIsInfixOf n h`
is Python `n in h` for strings. The empty needle matches everywhere. -/
def charListIsInfixOf : List Char → List Char → Bool
  | needle, [] => needle.isEmpty
  | needle, c :: t => List.isPrefixOf needle (c :: t) || charListIsInfixOf needle t

/-- Python substring containment `sub in s`. -/
def strContainsSub (s sub : String) : Bool := charListIsInfixOf sub.data s.data

/-- Python `s.split(sep)` for a one-character separator, acting on the
character list. The result is always a nonempty list of pieces. -/
def splitCharList (sep : Char) : List Char → List (List Char)
  | [] => [[]]
  | x :: xs =>
    let r := splitCharList sep xs
    if x = sep then [] :: r
    else
      match r with
      | [] => [[x]]
      | h :: t => (x :: h) :: t

/-- Python `s.split(sep)` for a one-character separator. -/
def splitOnChar (sep : Char) (s : String) : List String :=
  (splitCharList sep s.data).map String.mk

/-- Python `s.strip(c)` for a single strip character: remove every
leading and trailing occurrence of `c`. -/
def stripChar (c : Char) (s : String) : String :=
  ⟨((s.data.dropWhile (· == c)).reverse.dropWhile (· == c)).reverse⟩

/-- Python truthiness of an optional string: `None` and `""` are falsy. -/
def pyTruthy : Option String → Bool
  | none => false
  | some s => !(s == "")

/-- Text of `s` before its first `:`; the Python expression
`s.split(':')[0] if ':' in s else s` used to compute base model names. -/
def baseOf (s : String) : String := ⟨s.data.takeWhile (· != ':')⟩

/-- Parsed catalog produced by `extract_models_by_category`: category
labels paired with their ordered entry lists, in insertion order
(Python dictionaries preserve insertion order). -/
abbrev Catalog := List (String × List String)

/-- Append one entry to a category of the catalog, modelling the
`if current_category not in categories: categories[current_category] = []`
plus `append` step: a new key is created at the end of the dictionary,
an existing key keeps its position and grows its list. -/
def addEntry : Catalog → String → String → Catalog
  | [], cat, item => [(cat, [item])]
  | (k, vs) :: rest, cat, item =>
    if k = cat then (k, vs ++ [item]) :: rest
    else (k, vs) :: addEntry rest cat item

/-- Loop of `extract_models_by_category`
(`src/utils/update_librechat_config.py` lines 36-49): the state is the
current category (initially `None`) and the accumulated catalog. The
`elif` guard uses Python truthiness of `current_category`. -/
def extractGo : Option String → Catalog → List String → Catalog
  | _, acc, [] => acc
  | cur, acc, item :: rest =>
    if strStartsWith item "---" && strEndsWith item "---" then
      extractGo (some (stripChar '-' item)) acc rest
    else if pyTruthy cur && !strStartsWith item "---" then
      extractGo cur (addEntry acc (cur.getD "") item) rest
    else
      extractGo cur acc rest

/-- Python `extract_models_by_category` (lines 36-49). -/
def extract_models_by_category (modelsList : List String) : Catalog :=
  extractGo none [] modelsList

/-- All catalog entries in scan order: category iteration order, then
order within each category. -/
def allModels : Catalog → List String
  | [] => []
  | c :: rest => c.2 ++ allModels rest

/-- Python dictionary lookup `d[k] if k in d else None` for the two
static tables (whose keys are distinct string literals). -/
def lookupStr {α : Type} (k : String) : List (String × α) → Option α
  | [] => none
  | (k', v) :: rest => if k' = k then some v else lookupStr k rest

/-- Family Table: the `model_families` dictionary embedded in
`find_newer_model_family` (lines 79-110), in source order. -/
def model_families : List (String × List String) := [
  ("anthropic/claude-3.7-sonnet", ["anthropic/claude-4-sonnet", "anthropic/claude-4"]),
  ("anthropic/claude-3.7-sonnet:thinking", ["anthropic/claude-4-sonnet:thinking", "anthropic/claude-4:thinking"]),
  ("anthropic/claude-3.5-sonnet", ["anthropic/claude-4-sonnet", "anthropic/claude-4"]),
  ("anthropic/claude-3.5-sonnet:thinking", ["anthropic/claude-4-sonnet:thinking", "anthropic/claude-4:thinking"]),
  ("anthropic/claude-3-opus", ["anthropic/claude-4-opus", "anthropic/claude-4"]),
  ("anthropic/claude-3-opus:thinking", ["anthropic/claude-4-opus:thinking", "anthropic/claude-4:thinking"]),
  ("anthropic/claude-3-haiku", ["anthropic/claude-4-haiku", "anthropic/claude-4"]),
  ("anthropic/claude-3-haiku:thinking", ["anthropic/claude-4-haiku:thinking", "anthropic/claude-4:thinking"]),
  ("openai/gpt-4", ["openai/gpt-4o", "openai/gpt-4o-latest"]),
  ("openai/gpt-4-turbo", ["openai/gpt-4o", "openai/gpt-4o-latest"]),
  ("openai/gpt-4-turbo-preview", ["openai/gpt-4o", "openai/gpt-4o-latest"]),
  ("openai/gpt-4-1106-preview", ["openai/gpt-4o", "openai/gpt-4o-latest"]),
  ("openai/gpt-4-0125-preview", ["openai/gpt-4o", "openai/gpt-4o-latest"]),
  ("openai/gpt-4-0613", ["openai/gpt-4o", "openai/gpt-4o-latest"]),
  ("openai/gpt-4-0314", ["openai/gpt-4o", "openai/gpt-4o-latest"]),
  ("openai/gpt-3.5-turbo", ["openai/gpt-4o-mini", "openai/o4-mini"]),
  ("openai/gpt-3.5-turbo-16k", ["openai/gpt-4o-mini", "openai/o4-mini"]),
  ("google/gemini-2.0", ["google/gemini-2.5-pro", "google/gemini-2.5-pro-exp-03-25"]),
  ("google/gemini-1.5", ["google/gemini-2.5-pro", "google/gemini-2.5-pro-exp-03-25"]),
  ("google/gemini-1.0", ["google/gemini-2.5-pro", "google/gemini-2.5-pro-exp-03-25"]),
  ("deepseek/deepseek-chat-v2", ["deepseek/deepseek-chat-v3", "deepseek/deepseek-chat-v3-0324"]),
  ("deepseek/deepseek-chat-v1", ["deepseek/deepseek-chat-v3", "deepseek/deepseek-chat-v3-0324"]),
  ("x-ai/grok-2", ["x-ai/grok-3", "x-ai/grok-3-beta"]),
  ("x-ai/grok-1", ["x-ai/grok-3", "x-ai/grok-3-beta"]),
  ("mistralai/mistral-7b", ["mistralai/mistral-8x7b", "mistralai/mistral-large"]),
  ("mistralai/mistral-medium", ["mistralai/mistral-large", "mistralai/mistral-large-latest"]),
  ("meta-llama/llama-2", ["meta-llama/llama-3", "meta-llama/llama-3.1"]),
  ("meta-llama/llama-2-70b", ["meta-llama/llama-3.1-70b", "meta-llama/llama-3.1-405b"]),
  ("meta-llama/llama-2-13b", ["meta-llama/llama-3.1-8b", "meta-llama/llama-3.1-70b"]),
  ("meta-llama/llama-2-7b", ["meta-llama/llama-3.1-8b", "meta-llama/llama-3.1-70b"])]

/-- Inner double loop of `find_newer_model_family` (lines 113-121):
`newer_model` is found when some non-`:free` catalog entry equals it. -/
def candidateInCatalog (cand : String) (cats : Catalog) : Bool :=
  cats.any fun c => c.2.any fun m => !strEndsWith m ":free" && m == cand

/-- Python `find_newer_model_family` (lines 77-124). -/
def find_newer_model_family (currentModel : String) (cats : Catalog) : Option String :=
  match lookupStr currentModel model_families with
  | some cands => cands.find? fun c => candidateInCatalog c cats
  | none => none

/-- One iteration of the sibling scan of `find_latest_model_version`
(lines 60-69), including the Python falsiness in
`if not latest_model or model > latest_model`. -/
def latestStep (baseModel : String) (acc : Option String) (m : String) : Option String :=
  if strEndsWith m ":free" then acc
  else if baseOf m = baseModel then
    match acc with
    | none => some m
    | some l => if l == "" || strLt l m then some m else some l
  else acc

/-- Python `find_latest_model_version` (lines 51-75). The final
`if not latest_model:` is taken both for `None` and for `""`. -/
def find_latest_model_version (currentModel : String) (cats : Catalog) : Option String :=
  let latest := cats.foldl (fun acc c => c.2.foldl (latestStep (baseOf currentModel)) acc) none
  match latest with
  | none => find_newer_model_family currentModel cats
  | some l => if l == "" then find_newer_model_family currentModel cats else some l

/-- Python `validate_model_exists` (lines 126-132). -/
def validate_model_exists (modelName : String) (cats : Catalog) : Bool :=
  cats.any fun c => c.2.any fun m => m == modelName

/-- Replacement Table: the `replacement_mappings` dictionary embedded in
`find_valid_replacement_model` (lines 137-171), in source order. -/
def replacement_mappings : List (String × String) := [
  ("google/gemini-2.5-flash-preview", "google/gemini-2.5-pro-exp-03-25"),
  ("google/gemini-2.5-flash-preview:thinking", "google/gemini-2.5-pro-exp-03-25"),
  ("google/gemini-2.5-pro-preview-03-25", "google/gemini-2.5-pro-exp-03-25"),
  ("google/gemini-2.5-pro-preview", "google/gemini-2.5-pro-exp-03-25"),
  ("google/gemini-2.0-flash", "google/gemini-2.5-pro-exp-03-25"),
  ("google/gemini-2.0-pro", "google/gemini-2.5-pro-exp-03-25"),
  ("google/gemini-1.5-pro", "google/gemini-2.5-pro-exp-03-25"),
  ("google/gemini-1.5-flash", "google/gemini-2.5-pro-exp-03-25"),
  ("openai/gpt-4-turbo", "openai/gpt-4o-latest"),
  ("openai/gpt-4-turbo-preview", "openai/gpt-4o-latest"),
  ("openai/gpt-4-1106-preview", "openai/gpt-4o-latest"),
  ("openai/gpt-4-0125-preview", "openai/gpt-4o-latest"),
  ("openai/gpt-4-0613", "openai/gpt-4o-latest"),
  ("openai/gpt-4-0314", "openai/gpt-4o-latest"),
  ("openai/gpt-3.5-turbo", "openai/o4-mini"),
  ("openai/gpt-3.5-turbo-16k", "openai/o4-mini"),
  ("anthropic/claude-3.5-sonnet", "anthropic/claude-3.7-sonnet"),
  ("anthropic/claude-3.5-sonnet:thinking", "anthropic/claude-3.7-sonnet:thinking"),
  ("anthropic/claude-3-opus", "anthropic/claude-3.7-sonnet"),
  ("anthropic/claude-3-opus:thinking", "anthropic/claude-3.7-sonnet:thinking"),
  ("anthropic/claude-3-haiku", "anthropic/claude-3.7-sonnet"),
  ("anthropic/claude-3-haiku:thinking", "anthropic/claude-3.7-sonnet:thinking"),
  ("deepseek/deepseek-chat-v2", "deepseek/deepseek-chat-v3-0324"),
  ("deepseek/deepseek-chat-v1", "deepseek/deepseek-chat-v3-0324"),
  ("x-ai/grok-2", "x-ai/grok-3-beta"),
  ("x-ai/grok-1", "x-ai/grok-3-beta"),
  ("mistralai/mistral-7b", "mistralai/mistral-large"),
  ("mistralai/mistral-medium", "mistralai/mistral-large"),
  ("meta-llama/llama-2", "meta-llama/llama-3.1-8b"),
  ("meta-llama/llama-2-70b", "meta-llama/llama-3.1-70b"),
  ("meta-llama/llama-2-13b", "meta-llama/llama-3.1-8b"),
  ("meta-llama/llama-2-7b", "meta-llama/llama-3.1-8b")]

/-- Similar-model test of the provider scan in
`find_valid_replacement_model` (lines 185-199): the entry is not
`:free`, starts with `provider + "/"`, and some of the first two hyphen
tokens of the invalid model's name occurs as a literal substring of the
whole entry text (`any(part in model for part in invalid_parts[:2])`). -/
def similarityMatch (provider modelName : String) (m : String) : Bool :=
  !strEndsWith m ":free" && strStartsWith m (provider ++ "/") &&
    ((splitOnChar '-' modelName).take 2).any fun part => strContainsSub m part

/-- Last-resort test of the final scan in `find_valid_replacement_model`
(lines 201-208): the entry is not `:free` and starts with
`parts[0] + "/"`. -/
def sameProviderMatch (pfx : String) (m : String) : Bool :=
  !strEndsWith m ":free" && strStartsWith m (pfx ++ "/")

/-- Early-returning nested scan over categories then entries, the shape
of every `for category, models in categories.items(): for model in
models: ... return model` loop in the source. -/
def findFirstModel (p : String → Bool) (cats : Catalog) : Option String :=
  cats.findSome? fun c => c.2.find? p

/-- Python `find_valid_replacement_model` (lines 134-210). `parts` is
assigned before the arity test, so the last-resort scan always uses
`parts[0]`, the text before the first `/`. -/
def find_valid_replacement_model (invalidModel : String) (cats : Catalog) : Option String :=
  let direct :=
    match lookupStr invalidModel replacement_mappings with
    | some r => if validate_model_exists r cats then some r else none
    | none => none
  match direct with
  | some r => some r
  | none =>
    let parts := splitOnChar '/' invalidModel
    let similar :=
      if parts.length = 2 then
        findFirstModel (similarityMatch (parts.headD "") (parts.getLastD "")) cats
      else none
    match similar with
    | some m => some m
    | none => findFirstModel (sameProviderMatch (parts.headD "")) cats

/-! ## Configuration document model

The YAML document as the two update functions see it: a `modelSpecs.list`
of spec records, each optionally holding a `preset` with an optional
`model` field and an optional top-level `modelLabel`; and
`endpoints.custom`, a list of endpoints each optionally holding a
`models.default` list. Every other field of each record is kept
abstractly as an association list, so frame properties can be stated. -/

/-- The `preset` record of a spec entry: its optional `model` field plus
all its other fields. -/
structure Preset where
  model : Option String
  rest : List (String × String)
deriving DecidableEq

/-- One entry of `config['modelSpecs']['list']`. -/
structure SpecRec where
  preset : Option Preset
  modelLabel : Option String
  rest : List (String × String)
deriving DecidableEq

/-- The `config['modelSpecs']` section: its optional `list` key plus
other keys. -/
structure ModelSpecs where
  list : Option (List SpecRec)
  rest : List (String × String)
deriving DecidableEq

/-- One entry of `config['endpoints']['custom']`: its optional
`models.default` list plus all other fields (name, keys of `models`
other than `default`, and so on). -/
structure Endpoint where
  modelsDefault : Option (List String)
  rest : List (String × String)
deriving DecidableEq

/-- The whole configuration document: the optional `modelSpecs` section,
the optional `endpoints.custom` list (absent when `endpoints` or
`endpoints['custom']` is missing), and all other top-level keys. -/
structure Config where
  modelSpecs : Option ModelSpecs
  endpointsCustom : Option (List Endpoint)
  rest : List (String × String)
deriving DecidableEq

/-- Outcome of processing one spec record in the loop of
`update_model_specs_with_latest_models` (lines 229-262): the resulting
record, and which of the three observable events the iteration produced
(`updates_made += 1`, `replacements_made += 1`, or the printed
"Could not find replacement" report). -/
structure SpecStepResult where
  spec : SpecRec
  updated : Bool
  replaced : Bool
  noReplacement : Bool
deriving DecidableEq

/-- Loop body of `update_model_specs_with_latest_models` for one spec
record (lines 229-262), including the Python truthiness tests
`if replacement_model:` and `if latest_model and ...`. -/
def processSpec (cats : Catalog) (s : SpecRec) : SpecStepResult :=
  match s.preset with
  | none => ⟨s, false, false, false⟩
  | some p =>
    match p.model with
    | none => ⟨s, false, false, false⟩
    | some currentModel =>
      if validate_model_exists currentModel cats then
        match find_latest_model_version currentModel cats with
        | none => ⟨s, false, false, false⟩
        | some l =>
          if l ≠ "" ∧ l ≠ currentModel then
            ⟨{ s with preset := some { p with model := some l },
                      modelLabel := s.modelLabel.map fun _ => l },
              true, false, false⟩
          else ⟨s, false, false, false⟩
      else
        match find_valid_replacement_model currentModel cats with
        | none => ⟨s, false, false, true⟩
        | some r =>
          if r ≠ "" then
            ⟨{ s with preset := some { p with model := some r },
                      modelLabel := s.modelLabel.map fun _ => r },
              false, true, false⟩
          else ⟨s, false, false, true⟩

/-- Result of `update_model_specs_with_latest_models`: the updated
document plus the run's observable counts (`updates_made`,
`replacements_made`, and how many "Could not find replacement" reports
were printed). -/
structure SpecsUpdateResult where
  config : Config
  updates_made : Nat
  replacements_made : Nat
  could_not_replace : Nat
deriving DecidableEq

/-- Python `update_model_specs_with_latest_models` (lines 212-266). A
missing `modelSpecs` section or `list` key is created empty; every spec
record is processed in order and appended exactly once. -/
def update_model_specs_with_latest_models (config : Config) (openrouterModels : List String) :
    SpecsUpdateResult :=
  let cats := extract_models_by_category openrouterModels
  let ms := config.modelSpecs.getD ⟨none, []⟩
  let specs := ms.list.getD []
  let results := specs.map (processSpec cats)
  { config := { config with modelSpecs := some { ms with list := some (results.map (·.spec)) } },
    updates_made := (results.filter (·.updated)).length,
    replacements_made := (results.filter (·.replaced)).length,
    could_not_replace := (results.filter (·.noReplacement)).length }

/-- Outcome of processing one model string in the per-endpoint loop of
`update_endpoints_with_latest_models` (lines 283-305): the string
appended to `updated_models`, and which observable event the iteration
produced. -/
structure ModelStepResult where
  model : String
  updated : Bool
  replaced : Bool
  noReplacement : Bool
deriving DecidableEq

/-- Loop body of `update_endpoints_with_latest_models` for one model of
an endpoint's `models.default` list (lines 283-305). -/
def processEndpointModel (cats : Catalog) (currentModel : String) : ModelStepResult :=
  if validate_model_exists currentModel cats then
    match find_latest_model_version currentModel cats with
    | none => ⟨currentModel, false, false, false⟩
    | some l =>
      if l ≠ "" ∧ l ≠ currentModel then ⟨l, true, false, false⟩
      else ⟨currentModel, false, false, false⟩
  else
    match find_valid_replacement_model currentModel cats with
    | none => ⟨currentModel, false, false, true⟩
    | some r =>
      if r ≠ "" then ⟨r, false, true, false⟩
      else ⟨currentModel, false, false, true⟩

/-- Processing of one endpoint (lines 279-309): when it has a
`models.default` list, that list is rebuilt model by model; everything
else is untouched. -/
def processEndpoint (cats : Catalog) (e : Endpoint) : Endpoint :=
  match e.modelsDefault with
  | none => e
  | some ms =>
    { e with modelsDefault := some (ms.map fun m => (processEndpointModel cats m).model) }

/-- Python `update_endpoints_with_latest_models` (lines 268-312): the
document is returned unchanged when `endpoints.custom` is absent. -/
def update_endpoints_with_latest_models (config : Config) (openrouterModels : List String) :
    Config :=
  match config.endpointsCustom with
  | none => config
  | some eps =>
    let cats := extract_models_by_category openrouterModels
    { config with endpointsCustom := some (eps.map (processEndpoint cats)) }

/-! ## Specification-side definitions

These definitions follow the specification's wording (base-name
siblings, the lexicographic maximum, flattened scan order, the frame
shape of the document) and are compared with the source-side functions
above in the theorems below. -/

/-- Specification 4.3: an entry is a sibling of a query with base name
`b` when it does not end in `:free` and its own base name equals `b`. -/
def isSibling (b m : String) : Bool := !strEndsWith m ":free" && (baseOf m == b)

/-- All siblings of base name `b`, in scan order. -/
def siblings (b : String) (cats : Catalog) : List String :=
  (allModels cats).filter (isSibling b)

/-- One maximum-accumulation step of the sibling scan, the inner
`if not latest_model or model > latest_model: latest_model = model`. -/
def pymaxStep (acc : Option String) (m : String) : Option String :=
  match acc with
  | none => some m
  | some l => if l == "" || strLt l m then some m else some l

/-- Specification 4.5 steps 2-4 as worded: the similarity scan (only
when the identifier splits into exactly two parts on `/`) and then the
last-resort same-provider scan, both over the flattened catalog in
category order then within-category order. -/
def replacementScanSpec (x : String) (cats : Catalog) : Option String :=
  match (if (splitOnChar '/' x).length = 2 then
          (allModels cats).find?
            (similarityMatch ((splitOnChar '/' x).headD "") ((splitOnChar '/' x).getLastD ""))
        else none) with
  | some m => some m
  | none => (allModels cats).find? (sameProviderMatch ((splitOnChar '/' x).headD ""))

/-- Text of `x` before its first `/` — the whole of `x` when it has no
`/` — which is what `parts[0]` evaluates to. -/
def textBeforeSlash (x : String) : String := ⟨x.data.takeWhile (· != '/')⟩

/-- One step of the catalog parse, as the amended claim words it: a
string that both starts and ends with `---` opens a new category
labelled with the string stripped of hyphens and is itself dropped; any
other string is appended to the most recently opened category provided
that category's label is nonempty and the string does not itself start
with `---`; otherwise — including everything before the first delimiter
— the string is dropped. -/
def specParseStep (st : Option String × Catalog) (item : String) : Option String × Catalog :=
  if strStartsWith item "---" && strEndsWith item "---" then
    (some (stripChar '-' item), st.2)
  else
    match st.1 with
    | none => st
    | some c =>
      if c ≠ "" ∧ strStartsWith item "---" = false then (st.1, addEntry st.2 c item)
      else st

/-- The catalog parse as a left fold of `specParseStep` from no open
category and an empty catalog. -/
def specParse (items : List String) : Catalog :=
  (items.foldl specParseStep (none, [])).2

/-- Frame shape of a spec record: everything except the mutable
`preset.model` and `modelLabel` values (presence of `preset` and of
`modelLabel` is part of the shape). -/
def specShape (s : SpecRec) : Option (List (String × String)) × Bool × List (String × String) :=
  (s.preset.map Preset.rest, s.modelLabel.isSome, s.rest)

/-- Frame shape of an endpoint: everything except the contents of its
`models.default` list, whose presence and length are part of the shape. -/
def endpointShape (e : Endpoint) : Option Nat × List (String × String) :=
  (e.modelsDefault.map List.length, e.rest)

/-! ## Order lemmas for the code-point lexicographic comparison -/

/-- Characters with equal code points are equal. -/
theorem char_toNat_inj {a b : Char} (h : a.toNat = b.toNat) : a = b :=
  Char.ext (UInt32.ext h)

/-- The comparison is irreflexive. -/
theorem charListLt_irrefl : ∀ l : List Char, charListLt l l = false
  | [] => rfl
  | a :: as => by simp [charListLt, charListLt_irrefl as]

/-- The comparison is transitive. -/
theorem charListLt_trans : ∀ a b c : List Char,
    charListLt a b = true → charListLt b c = true → charListLt a c = true
  | [], [], _, hab, _ => by simp [charListLt] at hab
  | [], _ :: _, [], _, hbc => by simp [charListLt] at hbc
  | [], _ :: _, _ :: _, _, _ => rfl
  | _ :: _, [], _, hab, _ => by simp [charListLt] at hab
  | _ :: _, _ :: _, [], _, hbc => by simp [charListLt] at hbc
  | x :: xs, y :: ys, z :: zs, hab, hbc => by
    simp only [charListLt] at hab hbc ⊢
    by_cases h1 : x.toNat < y.toNat
    · by_cases h2 : y.toNat < z.toNat
      · rw [if_pos (by omega : x.toNat < z.toNat)]
      · by_cases h4 : z.toNat < y.toNat
        · rw [if_neg h2, if_pos h4] at hbc; exact absurd hbc (by simp)
        · rw [if_pos (by omega : x.toNat < z.toNat)]
    · by_cases h3 : y.toNat < x.toNat
      · rw [if_neg h1, if_pos h3] at hab; exact absurd hab (by simp)
      · rw [if_neg h1, if_neg h3] at hab
        by_cases h2 : y.toNat < z.toNat
        · rw [if_pos (by omega : x.toNat < z.toNat)]
        · by_cases h4 : z.toNat < y.toNat
          · rw [if_neg h2, if_pos h4] at hbc; exact absurd hbc (by simp)
          · rw [if_neg h2, if_neg h4] at hbc
            rw [if_neg (by omega : ¬ x.toNat < z.toNat),
              if_neg (by omega : ¬ z.toNat < x.toNat)]
            exact charListLt_trans xs ys zs hab hbc

/-- Two lists neither of which is smaller are equal. -/
theorem charListLt_antisymm : ∀ a b : List Char,
    charListLt a b = false → charListLt b a = false → a = b
  | [], [], _, _ => rfl
  | [], _ :: _, hab, _ => by simp [charListLt] at hab
  | _ :: _, [], _, hba => by simp [charListLt] at hba
  | x :: xs, y :: ys, hab, hba => by
    simp only [charListLt] at hab hba
    by_cases h1 : x.toNat < y.toNat
    · simp [h1] at hab
    · by_cases h2 : y.toNat < x.toNat
      · simp [h2] at hba
      · have hx : x = y := char_toNat_inj (by omega)
        subst hx
        simp only [h1, if_neg, if_false] at hab hba
        rw [charListLt_antisymm xs ys hab hba]

/-- Nothing is smaller than the empty list. -/
theorem charListLt_nil_right : ∀ l : List Char, charListLt l [] = false
  | [] => rfl
  | _ :: _ => rfl

/-- A list not above the empty list is empty. -/
theorem charListLt_nil_left : ∀ {l : List Char}, charListLt [] l = false → l = []
  | [], _ => rfl
  | _ :: _, h => by simp [charListLt] at h

/-- Strings with equal character lists are equal. -/
theorem strExt : ∀ {a b : String}, a.data = b.data → a = b
  | ⟨_⟩, ⟨_⟩, rfl => rfl

/-- String comparison is irreflexive. -/
theorem strLt_irrefl (s : String) : strLt s s = false := charListLt_irrefl _

/-- String comparison is transitive. -/
theorem strLt_trans {a b c : String} (h1 : strLt a b = true) (h2 : strLt b c = true) :
    strLt a c = true := charListLt_trans _ _ _ h1 h2

/-- Strings neither of which is smaller are equal. -/
theorem strLt_antisymm {a b : String} (h1 : strLt a b = false) (h2 : strLt b a = false) :
    a = b := strExt (charListLt_antisymm _ _ h1 h2)

/-- No string is below the empty string. -/
theorem strLt_empty_right (s : String) : strLt s "" = false := charListLt_nil_right _

/-- A string not above the empty string is empty. -/
theorem strLt_empty_left {s : String} (h : strLt "" s = false) : s = "" :=
  strExt (charListLt_nil_left h)

/-! ## The sibling scan computes the maximum -/

/-- Invariant of the `latest_model` accumulation: starting from `some a`
the fold yields the maximum of `a` and the scanned entries. -/
theorem pymax_invariant : ∀ (l : List String) (a : String),
    ∃ b, l.foldl pymaxStep (some a) = some b ∧ strLt b a = false ∧
      (∀ m ∈ l, strLt b m = false) ∧ (b = a ∨ b ∈ l)
  | [], a => ⟨a, rfl, strLt_irrefl a, by simp, Or.inl rfl⟩
  | m :: rest, a => by
    rw [List.foldl_cons]
    by_cases hcond : (a == "" || strLt a m) = true
    · have hstep : pymaxStep (some a) m = some m := by simp [pymaxStep, hcond]
      obtain ⟨b, hb, hbm, hball, hmem⟩ := pymax_invariant rest m
      rw [hstep]
      refine ⟨b, hb, ?_, ?_, ?_⟩
      · rcases Bool.or_eq_true_iff.mp hcond with ha | ham
        · have ha' : a = "" := by simpa using ha
          rw [ha']; exact strLt_empty_right b
        · cases hba : strLt b a with
          | false => rfl
          | true => rw [strLt_trans hba ham] at hbm; exact hbm
      · intro m' hm'
        rcases List.mem_cons.mp hm' with rfl | h
        · exact hbm
        · exact hball m' h
      · right
        rcases hmem with rfl | h
        · exact List.mem_cons_self _ _
        · exact List.mem_cons_of_mem _ h
    · have hcond2 : (a == "" || strLt a m) = false := by simpa using hcond
      have hcond' : (a == "") = false ∧ strLt a m = false := Bool.or_eq_false_iff.mp hcond2
      have hstep : pymaxStep (some a) m = some a := by
        simp [pymaxStep, hcond'.1, hcond'.2]
      obtain ⟨b, hb, hba, hball, hmem⟩ := pymax_invariant rest a
      rw [hstep]
      refine ⟨b, hb, hba, ?_, ?_⟩
      · intro m' hm'
        rcases List.mem_cons.mp hm' with rfl | h
        · cases hma : strLt m' a with
          | false =>
            have : a = m' := strLt_antisymm hcond'.2 hma
            rw [← this]; exact hba
          | true =>
            cases hbm : strLt b m' with
            | false => rfl
            | true => rw [strLt_trans hbm hma] at hba; exact hba
        · exact hball m' h
      · rcases hmem with rfl | h
        · exact Or.inl rfl
        · exact Or.inr (List.mem_cons_of_mem _ h)

/-- The fold yields `none` exactly on the empty sibling list. -/
theorem pymax_none_iff (l : List String) : l.foldl pymaxStep none = none ↔ l = [] := by
  constructor
  · cases l with
    | nil => intro _; rfl
    | cons m rest =>
      intro h
      rw [List.foldl_cons] at h
      have h0 : pymaxStep none m = some m := rfl
      rw [h0] at h
      obtain ⟨b, hb, -⟩ := pymax_invariant rest m
      rw [hb] at h
      cases h
  · rintro rfl; rfl

/-- A `some` result of the fold is a scanned entry and is not below any
scanned entry. -/
theorem pymax_some {l : List String} {z : String} (h : l.foldl pymaxStep none = some z) :
    z ∈ l ∧ ∀ m ∈ l, strLt z m = false := by
  cases l with
  | nil => cases h
  | cons m rest =>
    rw [List.foldl_cons] at h
    have h0 : pymaxStep none m = some m := rfl
    rw [h0] at h
    obtain ⟨b, hb, hbm, hball, hmem⟩ := pymax_invariant rest m
    rw [hb] at h
    injection h with h
    subst h
    constructor
    · rcases hmem with rfl | hr
      · exact List.mem_cons_self _ _
      · exact List.mem_cons_of_mem _ hr
    · intro m' hm'
      rcases List.mem_cons.mp hm' with rfl | h'
      · exact hbm
      · exact hball m' h'

/-! ## Nested category loops versus the flattened scan -/

/-- The nested `for category ... for model ...` fold equals the fold
over the flattened entry list. -/
theorem foldl_catalog (f : Option String → String → Option String) :
    ∀ (cats : Catalog) (init : Option String),
      cats.foldl (fun acc c => c.2.foldl f acc) init = (allModels cats).foldl f init
  | [], _ => rfl
  | c :: rest, init => by
    rw [List.foldl_cons]
    rw [foldl_catalog f rest (c.2.foldl f init)]
    simp [allModels, List.foldl_append]

/-- A fold whose step ignores entries failing a guard equals the fold
over the filtered list. -/
theorem foldl_guarded (p : String → Bool) (g : Option String → String → Option String) :
    ∀ (l : List String) (init : Option String),
      l.foldl (fun acc m => if p m then g acc m else acc) init = (l.filter p).foldl g init
  | [], _ => rfl
  | m :: rest, init => by
    cases hm : p m <;> simp [List.filter_cons, hm, foldl_guarded p g rest]

/-- The loop body of the sibling scan is the guarded maximum step. -/
theorem latestStep_eq (baseModel : String) :
    latestStep baseModel = fun acc m => if isSibling baseModel m then pymaxStep acc m else acc := by
  funext acc m
  unfold latestStep isSibling pymaxStep
  cases hf : strEndsWith m ":free"
  · by_cases hb : baseOf m = baseModel
    · simp [hf, hb]
    · simp [hf, hb, beq_false_of_ne hb]
  · simp [hf]

/-- `find_latest_model_version` in terms of the sibling list: the
maximum of the siblings when that is truthy, and the family resolver
otherwise. -/
theorem find_latest_eq_fold (x : String) (cats : Catalog) :
    find_latest_model_version x cats =
      match (siblings (baseOf x) cats).foldl pymaxStep none with
      | none => find_newer_model_family x cats
      | some l => if l == "" then find_newer_model_family x cats else some l := by
  unfold find_latest_model_version
  rw [latestStep_eq, foldl_catalog, foldl_guarded]
  rfl

/-- Membership in the sibling list unfolded. -/
theorem mem_siblings {b m : String} {cats : Catalog} :
    m ∈ siblings b cats ↔
      m ∈ allModels cats ∧ strEndsWith m ":free" = false ∧ baseOf m = b := by
  unfold siblings isSibling
  rw [List.mem_filter]
  simp [Bool.and_eq_true, and_assoc]

/-- The nested early-return scan equals `find?` over the flattened
entry list. -/
theorem findFirstModel_eq (p : String → Bool) :
    ∀ cats : Catalog, findFirstModel p cats = (allModels cats).find? p
  | [] => rfl
  | c :: rest => by
    have ih := findFirstModel_eq p rest
    unfold findFirstModel at ih ⊢
    rw [List.findSome?_cons]
    cases h : c.2.find? p with
    | some v => simp [allModels, List.find?_append, h, Option.or]
    | none => simp [allModels, List.find?_append, h, Option.or, ih]

/-- The nested `any` scan equals `any` over the flattened entry list. -/
theorem any_catalog (q : String → Bool) :
    ∀ cats : Catalog, (cats.any fun c => c.2.any q) = (allModels cats).any q
  | [] => rfl
  | c :: rest => by simp [allModels, List.any_append, any_catalog q rest]

/-! ## Table lookups and static-table facts -/

/-- A successful lookup comes from a table entry. -/
theorem lookupStr_mem {α : Type} (k : String) (v : α) :
    ∀ t : List (String × α), lookupStr k t = some v → (k, v) ∈ t
  | [], h => by simp [lookupStr] at h
  | (k', v') :: rest, h => by
    by_cases hk : k' = k
    · subst hk
      simp only [lookupStr, if_pos rfl] at h
      injection h with h
      subst h
      exact List.mem_cons_self _ _
    · simp only [lookupStr, if_neg hk] at h
      exact List.mem_cons_of_mem _ (lookupStr_mem k v rest h)

/-- Every successor candidate in the Family Table is a nonempty string. -/
theorem family_values_ne_empty : ∀ p ∈ model_families, ∀ c ∈ p.2, c ≠ "" := by decide

/-- No value of the Replacement Table ends in `:free`. -/
theorem replacement_values_not_free :
    ∀ p ∈ replacement_mappings, strEndsWith p.2 ":free" = false := by decide

/-- Every key of the Replacement Table splits into exactly two parts on
`/`. -/
theorem replacement_keys_two_parts :
    ∀ p ∈ replacement_mappings, (splitOnChar '/' p.1).length = 2 := by decide

/-- A value returned by `find_newer_model_family` is a non-`:free`
catalog entry and is nonempty. -/
theorem family_some {x y : String} {cats : Catalog}
    (h : find_newer_model_family x cats = some y) :
    y ∈ allModels cats ∧ strEndsWith y ":free" = false ∧ y ≠ "" := by
  unfold find_newer_model_family at h
  cases hl : lookupStr x model_families with
  | none => rw [hl] at h; cases h
  | some cands =>
    rw [hl] at h
    have hy := List.find?_some h
    have hmem := List.mem_of_find?_eq_some h
    have hne : y ≠ "" := family_values_ne_empty _ (lookupStr_mem x cands _ hl) y hmem
    unfold candidateInCatalog at hy
    rw [any_catalog] at hy
    obtain ⟨m, hm, hmp⟩ := List.any_eq_true.mp hy
    have hsplit : (!strEndsWith m ":free") = true ∧ (m == y) = true :=
      Bool.and_eq_true_iff.mp hmp
    have hmy : m = y := by simpa using hsplit.2
    subst hmy
    exact ⟨hm, by simpa using hsplit.1, hne⟩

/-! ## Case analysis of the version resolver -/

/-- When the sibling fold has a truthy maximum the resolver returns it. -/
theorem find_latest_some_of_max {x z : String} {cats : Catalog}
    (hfold : (siblings (baseOf x) cats).foldl pymaxStep none = some z) (hz : z ≠ "") :
    find_latest_model_version x cats = some z := by
  rw [find_latest_eq_fold, hfold]
  simp [hz]

/-- When the sibling fold is falsy the resolver delegates to the family
resolver. -/
theorem find_latest_family_case {x : String} {cats : Catalog}
    (hfold : (siblings (baseOf x) cats).foldl pymaxStep none = none ∨
      (siblings (baseOf x) cats).foldl pymaxStep none = some "") :
    find_latest_model_version x cats = find_newer_model_family x cats := by
  rw [find_latest_eq_fold]
  rcases hfold with h | h
  · rw [h]
  · rw [h]
    rfl

/-- A `some` result of the resolver came either from a truthy sibling
maximum or from the family resolver with a falsy fold. -/
theorem find_latest_cases {x y : String} {cats : Catalog}
    (h : find_latest_model_version x cats = some y) :
    ((siblings (baseOf x) cats).foldl pymaxStep none = some y ∧ y ≠ "") ∨
    (find_newer_model_family x cats = some y ∧
      ((siblings (baseOf x) cats).foldl pymaxStep none = none ∨
        (siblings (baseOf x) cats).foldl pymaxStep none = some "")) := by
  rw [find_latest_eq_fold] at h
  cases hf : (siblings (baseOf x) cats).foldl pymaxStep none with
  | none => rw [hf] at h; exact Or.inr ⟨h, Or.inl rfl⟩
  | some l =>
    rw [hf] at h
    dsimp only at h
    by_cases hl : l = ""
    · subst hl
      simp only [if_pos (by rfl : (("" : String) == "") = true)] at h
      exact Or.inr ⟨h, Or.inr rfl⟩
    · rw [if_neg (by simp [hl])] at h
      injection h with h
      subst h
      exact Or.inl ⟨rfl, hl⟩

/-! ## Claim theorems -/

/-- C1 (counterexample): the claim says the resolver returns the
lexicographically greatest sibling whenever any sibling exists, and
delegates to the family resolver only when there is none. With query
`""` and catalog `[("Text", [""])]` the entry `""` is a sibling (its own
greatest), yet the resolver returns `none`, because the Python test
`if not latest_model:` is also taken when the accumulated maximum is the
empty string. -/
theorem C1_counterexample :
    siblings (baseOf "") [("Text", [""])] = [""] ∧
    find_latest_model_version "" [("Text", [""])] = none ∧
    ¬ find_latest_model_version "" [("Text", [""])] = some "" := by
  refine ⟨by decide, by decide, by decide⟩

/-- C1 (amended): `find_latest_model_version` scans all entries of all
categories, ignores `:free` entries, treats an entry as a sibling
exactly when its text before the first `:` equals the query's, and
returns the lexicographically greatest sibling provided some sibling is
nonempty; when every sibling is the empty string — in particular when no
sibling exists — it returns `find_newer_model_family` instead. -/
theorem C1_latest_version_amended (x : String) (cats : Catalog) :
    ((∃ m ∈ siblings (baseOf x) cats, m ≠ "") →
      ∃ y, find_latest_model_version x cats = some y ∧ y ∈ siblings (baseOf x) cats ∧
        ∀ m ∈ siblings (baseOf x) cats, strLt y m = false) ∧
    ((∀ m ∈ siblings (baseOf x) cats, m = "") →
      find_latest_model_version x cats = find_newer_model_family x cats) := by
  constructor
  · rintro ⟨m₀, hm₀, hm₀ne⟩
    cases hz : (siblings (baseOf x) cats).foldl pymaxStep none with
    | none =>
      rw [(pymax_none_iff _).mp hz] at hm₀
      cases hm₀
    | some z =>
      obtain ⟨hzmem, hzmax⟩ := pymax_some hz
      have hzne : z ≠ "" := by
        intro h0
        subst h0
        exact hm₀ne (strLt_empty_left (hzmax m₀ hm₀))
      exact ⟨z, find_latest_some_of_max hz hzne, hzmem, hzmax⟩
  · intro hall
    cases hz : (siblings (baseOf x) cats).foldl pymaxStep none with
    | none => exact find_latest_family_case (Or.inl hz)
    | some z =>
      obtain ⟨hzmem, -⟩ := pymax_some hz
      have hz0 : z = "" := hall z hzmem
      exact find_latest_family_case (Or.inr (hz0 ▸ hz))

/-- C1 (amended, witness): at the catalog `[("T", ["a/m:alpha",
"a/m:beta"])]` the nonempty-sibling branch fires for query `"a/m:alpha"`,
and at the empty catalog the delegation branch fires for query `"q"`. -/
theorem C1_latest_version_amended_witness :
    (∃ y, find_latest_model_version "a/m:alpha" [("T", ["a/m:alpha", "a/m:beta"])] = some y ∧
      y ∈ siblings (baseOf "a/m:alpha") [("T", ["a/m:alpha", "a/m:beta"])] ∧
      ∀ m ∈ siblings (baseOf "a/m:alpha") [("T", ["a/m:alpha", "a/m:beta"])],
        strLt y m = false) ∧
    find_latest_model_version "q" [] = find_newer_model_family "q" [] :=
  ⟨(C1_latest_version_amended "a/m:alpha" [("T", ["a/m:alpha", "a/m:beta"])]).1
      ⟨"a/m:alpha", by decide, by decide⟩,
    (C1_latest_version_amended "q" []).2 (by decide)⟩

/-- C2 (counterexample): Scenario A of the specification claims
`find_latest_model_version "openai/gpt-4o"` on the catalog
`[("Text", ["openai/gpt-4o", "openai/gpt-4o-latest"])]` yields
`"openai/gpt-4o-latest"`; it does not, since that entry's base name
(text before the first `:`, not `-`) differs from the query's. -/
theorem C2_counterexample :
    ¬ find_latest_model_version "openai/gpt-4o"
        [("Text", ["openai/gpt-4o", "openai/gpt-4o-latest"])] =
      some "openai/gpt-4o-latest" := by decide

/-- C2 (amended): on that catalog the resolver returns the query
itself, `"openai/gpt-4o"`, the only entry whose base name matches. -/
theorem C2_scenarioA_amended :
    find_latest_model_version "openai/gpt-4o"
        [("Text", ["openai/gpt-4o", "openai/gpt-4o-latest"])] = some "openai/gpt-4o" := by
  decide

/-- C4: `find_newer_model_family` looks the identifier up verbatim in
the Family Table and returns the first listed candidate appearing
verbatim as a non-`:free` entry of the flattened catalog, `none` when
the identifier is not a key or no candidate is present; and on the
catalog `[("Text", ["anthropic/claude-3.7-sonnet"])]` the version
resolver applied to `"anthropic/claude-3.5-sonnet"` yields `none`. -/
theorem C4_family_upgrade :
    (∀ (x : String) (cats : Catalog),
      find_newer_model_family x cats =
        match lookupStr x model_families with
        | some cands =>
          cands.find? fun c => (allModels cats).any fun m => !strEndsWith m ":free" && m == c
        | none => none) ∧
    find_latest_model_version "anthropic/claude-3.5-sonnet"
        [("Text", ["anthropic/claude-3.7-sonnet"])] = none := by
  constructor
  · intro x cats
    unfold find_newer_model_family
    cases lookupStr x model_families with
    | none => rfl
    | some cands =>
      dsimp only
      congr 1
      funext c
      unfold candidateInCatalog
      rw [any_catalog]
  · decide

/-- C7: a non-`none` result different from the input never resolves
back to the input on a second application. -/
theorem C7_no_cycle (x y : String) (cats : Catalog)
    (hxy : find_latest_model_version x cats = some y) (hne : y ≠ x) :
    find_latest_model_version y cats ≠ some x := by
  intro hcontra
  rcases find_latest_cases hxy with ⟨hfold, hy⟩ | ⟨hfam, hfalsy⟩
  · have hbase : baseOf y = baseOf x := (mem_siblings.mp (pymax_some hfold).1).2.2
    have hfold' : (siblings (baseOf y) cats).foldl pymaxStep none = some y := by
      rw [hbase]; exact hfold
    rw [find_latest_some_of_max hfold' hy] at hcontra
    injection hcontra with h
    exact hne h
  · obtain ⟨hyall, hyfree, hyne⟩ := family_some hfam
    have hymem : y ∈ siblings (baseOf y) cats := mem_siblings.mpr ⟨hyall, hyfree, rfl⟩
    cases hz : (siblings (baseOf y) cats).foldl pymaxStep none with
    | none =>
      rw [(pymax_none_iff _).mp hz] at hymem
      cases hymem
    | some z =>
      obtain ⟨hzmem, hzmax⟩ := pymax_some hz
      have hzne : z ≠ "" := by
        intro h0
        subst h0
        exact hyne (strLt_empty_left (hzmax y hymem))
      rw [find_latest_some_of_max hz hzne] at hcontra
      injection hcontra with hzx
      subst hzx
      obtain ⟨hxall, hxfree, -⟩ := mem_siblings.mp hzmem
      have hxmem : z ∈ siblings (baseOf z) cats := mem_siblings.mpr ⟨hxall, hxfree, rfl⟩
      rcases hfalsy with h0 | h0
      · rw [(pymax_none_iff _).mp h0] at hxmem
        cases hxmem
      · exact hzne (strLt_empty_left ((pymax_some h0).2 z hxmem))

/-- C7 (witness): `"a/m:alpha"` resolves to `"a/m:beta"` on the catalog
`[("T", ["a/m:alpha", "a/m:beta"])]`, and resolving `"a/m:beta"` does
not return `"a/m:alpha"`. -/
theorem C7_no_cycle_witness :
    find_latest_model_version "a/m:beta" [("T", ["a/m:alpha", "a/m:beta"])] ≠
      some "a/m:alpha" :=
  C7_no_cycle "a/m:alpha" "a/m:beta" [("T", ["a/m:alpha", "a/m:beta"])] (by decide) (by decide)

/-- The replacement resolver equals its specification-side description:
table hit validated against the catalog, then the similarity scan and
the last-resort scan over the flattened catalog. -/
theorem replacement_eq_spec (x : String) (cats : Catalog) :
    find_valid_replacement_model x cats =
      match lookupStr x replacement_mappings with
      | some v =>
        if validate_model_exists v cats then some v else replacementScanSpec x cats
      | none => replacementScanSpec x cats := by
  unfold find_valid_replacement_model replacementScanSpec
  simp only [findFirstModel_eq]
  cases hl : lookupStr x replacement_mappings with
  | none => rfl
  | some v =>
    by_cases hv : validate_model_exists v cats
    · simp [hv]
    · simp [hv]

/-- A match of the similarity scan never ends in `:free`. -/
theorem similarityMatch_not_free {pr mn m : String} (h : similarityMatch pr mn m = true) :
    strEndsWith m ":free" = false := by
  unfold similarityMatch at h
  simp only [Bool.and_eq_true, Bool.not_eq_true'] at h
  exact h.1.1

/-- A match of the last-resort scan never ends in `:free`. -/
theorem sameProviderMatch_not_free {pfx m : String} (h : sameProviderMatch pfx m = true) :
    strEndsWith m ":free" = false := by
  unfold sameProviderMatch at h
  simp only [Bool.and_eq_true, Bool.not_eq_true'] at h
  exact h.1

/-- A result of the similarity-plus-fallback scan never ends in
`:free`. -/
theorem replacementScanSpec_not_free {x y : String} {cats : Catalog}
    (h : replacementScanSpec x cats = some y) : strEndsWith y ":free" = false := by
  unfold replacementScanSpec at h
  split at h
  · rename_i m heq
    injection h with h
    subst h
    split at heq
    · exact similarityMatch_not_free (List.find?_some heq)
    · cases heq
  · exact sameProviderMatch_not_free (List.find?_some h)

/-- C3: for an identifier that is a Replacement Table key the resolver
returns the mapped value exactly when the value occurs verbatim in the
catalog; otherwise — as when the identifier is no table key — the result
is the first similar same-provider entry and then the first same-provider
entry of the flattened scan, in that order. -/
theorem C3_replacement_resolver (x : String) (cats : Catalog) :
    (∀ v, lookupStr x replacement_mappings = some v →
      find_valid_replacement_model x cats =
        if validate_model_exists v cats then some v else replacementScanSpec x cats) ∧
    (lookupStr x replacement_mappings = none →
      find_valid_replacement_model x cats = replacementScanSpec x cats) := by
  constructor
  · intro v hv
    rw [replacement_eq_spec, hv]
  · intro hn
    rw [replacement_eq_spec, hn]

/-- C3 (witness): the table key `"openai/gpt-4-turbo"` with its mapped
value present in the catalog, and the non-key `"vendor/unknown-model"`. -/
theorem C3_replacement_resolver_witness :
    find_valid_replacement_model "openai/gpt-4-turbo" [("Text", ["openai/gpt-4o-latest"])] =
      (if validate_model_exists "openai/gpt-4o-latest" [("Text", ["openai/gpt-4o-latest"])]
        then some "openai/gpt-4o-latest"
        else replacementScanSpec "openai/gpt-4-turbo" [("Text", ["openai/gpt-4o-latest"])]) ∧
    find_valid_replacement_model "vendor/unknown-model" [("Text", ["openai/gpt-4o"])] =
      replacementScanSpec "vendor/unknown-model" [("Text", ["openai/gpt-4o"])] :=
  ⟨(C3_replacement_resolver "openai/gpt-4-turbo" [("Text", ["openai/gpt-4o-latest"])]).1
      "openai/gpt-4o-latest" (by decide),
    (C3_replacement_resolver "vendor/unknown-model" [("Text", ["openai/gpt-4o"])]).2
      (by decide)⟩

/-- C5: none of the three resolvers ever returns a `:free`-suffixed
identifier. -/
theorem C5_never_free (x : String) (cats : Catalog) (y : String) :
    (find_latest_model_version x cats = some y → strEndsWith y ":free" = false) ∧
    (find_newer_model_family x cats = some y → strEndsWith y ":free" = false) ∧
    (find_valid_replacement_model x cats = some y → strEndsWith y ":free" = false) := by
  refine ⟨?_, ?_, ?_⟩
  · intro h
    rcases find_latest_cases h with ⟨hfold, -⟩ | ⟨hfam, -⟩
    · exact (mem_siblings.mp (pymax_some hfold).1).2.1
    · exact (family_some hfam).2.1
  · intro h
    exact (family_some h).2.1
  · intro h
    rw [replacement_eq_spec] at h
    cases hl : lookupStr x replacement_mappings with
    | some v =>
      rw [hl] at h
      dsimp only at h
      by_cases hv : validate_model_exists v cats
      · rw [if_pos hv] at h
        injection h with h
        subst h
        exact replacement_values_not_free _ (lookupStr_mem x v _ hl)
      · rw [if_neg hv] at h
        exact replacementScanSpec_not_free h
    | none =>
      rw [hl] at h
      exact replacementScanSpec_not_free h

/-- The first piece of a single-character split is the text before the
first occurrence of the separator. -/
theorem splitCharList_head (sep : Char) :
    ∀ l : List Char, ∃ t, splitCharList sep l = (l.takeWhile fun a => a != sep) :: t
  | [] => ⟨[], rfl⟩
  | x :: xs => by
    obtain ⟨t, ht⟩ := splitCharList_head sep xs
    by_cases hx : x = sep
    · refine ⟨splitCharList sep xs, ?_⟩
      simp [splitCharList, hx, List.takeWhile_cons]
    · refine ⟨t, ?_⟩
      simp only [splitCharList, if_neg hx, ht, List.takeWhile_cons]
      simp [hx]

/-- The head of a Python single-character split is the text before the
first separator. -/
theorem splitOnChar_headD (sep : Char) (s : String) :
    (splitOnChar sep s).headD "" = String.mk (s.data.takeWhile fun a => a != sep) := by
  obtain ⟨t, ht⟩ := splitCharList_head sep s.data
  unfold splitOnChar
  rw [ht]
  rfl

/-- A list all of whose elements satisfy the predicate is its own
`takeWhile`. -/
theorem takeWhile_of_all {p : Char → Bool} :
    ∀ {l : List Char}, (∀ a ∈ l, p a = true) → l.takeWhile p = l
  | [], _ => rfl
  | a :: as, h => by
    rw [List.takeWhile_cons, if_pos (h a (List.mem_cons_self a as))]
    rw [takeWhile_of_all fun b hb => h b (List.mem_cons_of_mem a hb)]

/-- C10: the resolvers are total; for an identifier that does not split
into exactly two parts on `/` the replacement resolver skips the
similarity scan and falls directly to the last-resort scan keyed on the
text before the first `/` — the whole identifier when it has no `/` —
and returns `none` rather than failing when that scan finds nothing. -/
theorem C10_degenerate_identifier (x : String) (cats : Catalog)
    (h : (splitOnChar '/' x).length ≠ 2) :
    find_valid_replacement_model x cats =
        (allModels cats).find? (sameProviderMatch (textBeforeSlash x)) ∧
    ((allModels cats).find? (sameProviderMatch (textBeforeSlash x)) = none →
      find_valid_replacement_model x cats = none) ∧
    (x.data.contains '/' = false → textBeforeSlash x = x) := by
  have hl : lookupStr x replacement_mappings = none := by
    cases hl : lookupStr x replacement_mappings with
    | none => rfl
    | some v => exact absurd (replacement_keys_two_parts _ (lookupStr_mem x v _ hl)) h
  have hmain : find_valid_replacement_model x cats =
      (allModels cats).find? (sameProviderMatch (textBeforeSlash x)) := by
    rw [replacement_eq_spec, hl]
    unfold replacementScanSpec
    rw [if_neg h]
    rw [splitOnChar_headD]
    rfl
  refine ⟨hmain, ?_, ?_⟩
  · intro hnone
    rw [hmain, hnone]
  · intro hc
    unfold textBeforeSlash
    have hall : ∀ a ∈ x.data, (a != '/') = true := by
      intro a ha
      have : ('/' == a) = false := by
        cases hb : ('/' == a) with
        | false => rfl
        | true =>
          exfalso
          have : x.data.contains '/' = true := by
            have h7 : ('/' : Char) = a := by simpa using hb
            show x.data.elem '/' = true
            exact List.elem_iff.mpr (h7 ▸ ha)
          rw [this] at hc
          cases hc
      have : a ≠ '/' := fun he => by subst he; simp at this
      simpa using this
    rw [takeWhile_of_all hall]

/-- C10 (witness): `"standalone"` has no `/`; the last-resort scan is
keyed on `"standalone/"` and, the catalog having no such entry, the
resolver returns `none` without failing. -/
theorem C10_degenerate_identifier_witness :
    find_valid_replacement_model "standalone" [("Text", ["openai/gpt-4o"])] = none ∧
    textBeforeSlash "standalone" = "standalone" :=
  ⟨(C10_degenerate_identifier "standalone" [("Text", ["openai/gpt-4o"])] (by decide)).2.1
      (by decide),
    (C10_degenerate_identifier "standalone" [("Text", ["openai/gpt-4o"])] (by decide)).2.2
      (by decide)⟩

/-- The source loop of the catalog parse equals the fold of the
specification-side step. -/
theorem extractGo_eq_foldl :
    ∀ (items : List String) (cur : Option String) (acc : Catalog),
      extractGo cur acc items = (items.foldl specParseStep (cur, acc)).2
  | [], _, _ => rfl
  | item :: rest, cur, acc => by
    rw [List.foldl_cons]
    unfold extractGo specParseStep
    by_cases hd : (strStartsWith item "---" && strEndsWith item "---") = true
    · rw [if_pos hd, if_pos hd]
      exact extractGo_eq_foldl rest _ _
    · rw [if_neg hd, if_neg hd]
      cases cur with
      | none =>
        rw [if_neg (by simp [pyTruthy])]
        exact extractGo_eq_foldl rest _ _
      | some c =>
        dsimp only
        by_cases hc : (pyTruthy (some c) && !strStartsWith item "---") = true
        · have hc' : c ≠ "" ∧ strStartsWith item "---" = false := by
            have := Bool.and_eq_true_iff.mp hc
            refine ⟨by simpa [pyTruthy] using this.1, by simpa using this.2⟩
          rw [if_pos hc, if_pos hc']
          exact extractGo_eq_foldl rest _ _
        · have hc' : ¬ (c ≠ "" ∧ strStartsWith item "---" = false) := by
            intro hcc
            exact hc (by simp [pyTruthy, hcc.1, hcc.2])
          rw [if_neg hc, if_neg hc']
          exact extractGo_eq_foldl rest _ _

/-- C8 (counterexample): `"---x"` starts with `---` but does not end
with it, so it is not a delimiter; the claim says that, coming after the
delimiter `"---A---"`, it must be appended to category `"A"` — but the
parser drops it (the `elif` also requires the item not to start with
`---`), leaving an empty catalog. -/
theorem C8_counterexample :
    strStartsWith "---x" "---" = true ∧ strEndsWith "---x" "---" = false ∧
    extract_models_by_category ["---A---", "---x"] = [] := by
  refine ⟨by decide, by decide, by decide⟩

/-- C8 (amended): the parser is the fold of the amended per-item rule —
delimiters (strings starting and ending with `---`) open a category
named by hyphen-stripping and are dropped; other strings are appended to
the current category only when that category's label is nonempty and the
string does not itself start with `---`; everything else, including all
strings before the first delimiter, is dropped, and a category appears
in the output once it receives an entry. -/
theorem C8_catalog_parse_amended (items : List String) :
    extract_models_by_category items = specParse items :=
  extractGo_eq_foldl items none []

/-- C5 (witness): a sibling-scan result, a family-table result and a
replacement-table result, each checked to be non-`:free`. -/
theorem C5_never_free_witness :
    strEndsWith "a/m:beta" ":free" = false ∧
    strEndsWith "openai/gpt-4o" ":free" = false ∧
    strEndsWith "openai/gpt-4o-latest" ":free" = false :=
  ⟨(C5_never_free "a/m:alpha" [("T", ["a/m:alpha", "a/m:beta"])] "a/m:beta").1 (by decide),
    (C5_never_free "openai/gpt-4" [("T", ["openai/gpt-4o"])] "openai/gpt-4o").2.1 (by decide),
    (C5_never_free "openai/gpt-4-turbo" [("Text", ["openai/gpt-4o-latest"])]
        "openai/gpt-4o-latest").2.2 (by decide)⟩

/-- C6: a configured model that is absent from the catalog and for which
the replacement resolver returns `none` is left unchanged by both update
functions; the iteration counts as a "could not find replacement" report
and not as a replacement, and nothing is thrown (the functions are
total). -/
theorem C6_unresolvable_kept (models : List String) (m : String)
    (h1 : validate_model_exists m (extract_models_by_category models) = false)
    (h2 : find_valid_replacement_model m (extract_models_by_category models) = none) :
    (∀ pRest sLabel sRest msRest eps cRest,
      update_model_specs_with_latest_models
          ⟨some ⟨some [⟨some ⟨some m, pRest⟩, sLabel, sRest⟩], msRest⟩, eps, cRest⟩ models =
        ⟨⟨some ⟨some [⟨some ⟨some m, pRest⟩, sLabel, sRest⟩], msRest⟩, eps, cRest⟩, 0, 0, 1⟩) ∧
    processEndpointModel (extract_models_by_category models) m = ⟨m, false, false, true⟩ ∧
    (∀ dRest cRest,
      update_endpoints_with_latest_models ⟨none, some [⟨some [m], dRest⟩], cRest⟩ models =
        ⟨none, some [⟨some [m], dRest⟩], cRest⟩) := by
  have hpe : processEndpointModel (extract_models_by_category models) m =
      ⟨m, false, false, true⟩ := by
    unfold processEndpointModel
    rw [h1, h2]
    rfl
  have hps : ∀ pRest sLabel sRest,
      processSpec (extract_models_by_category models) ⟨some ⟨some m, pRest⟩, sLabel, sRest⟩ =
        ⟨⟨some ⟨some m, pRest⟩, sLabel, sRest⟩, false, false, true⟩ := by
    intro pRest sLabel sRest
    unfold processSpec
    dsimp only
    rw [h1, h2]
    rfl
  refine ⟨?_, hpe, ?_⟩
  · intro pRest sLabel sRest msRest eps cRest
    simp [update_model_specs_with_latest_models, hps, List.filter]
  · intro dRest cRest
    simp [update_endpoints_with_latest_models, processEndpoint, hpe]

/-- C6 (witness): `"vendor/unknown-model"` against the catalog parsed
from `["---Text---", "openai/gpt-4o"]`. -/
theorem C6_unresolvable_kept_witness :
    update_model_specs_with_latest_models
        ⟨some ⟨some [⟨some ⟨some "vendor/unknown-model", []⟩, none, []⟩], []⟩, none, []⟩
        ["---Text---", "openai/gpt-4o"] =
      ⟨⟨some ⟨some [⟨some ⟨some "vendor/unknown-model", []⟩, none, []⟩], []⟩, none, []⟩,
        0, 0, 1⟩ ∧
    processEndpointModel (extract_models_by_category ["---Text---", "openai/gpt-4o"])
        "vendor/unknown-model" = ⟨"vendor/unknown-model", false, false, true⟩ :=
  ⟨(C6_unresolvable_kept ["---Text---", "openai/gpt-4o"] "vendor/unknown-model"
        (by decide) (by decide)).1 [] none [] [] none [],
    (C6_unresolvable_kept ["---Text---", "openai/gpt-4o"] "vendor/unknown-model"
        (by decide) (by decide)).2.1⟩

/-- C9 (counterexample): the claim allows only `model` values,
`modelLabel` fields and endpoint default-model lists to change, with no
structure added; but on a document with no `modelSpecs` section the
specs updater creates one (with an empty `list`), adding structure. -/
theorem C9_counterexample :
    (Config.mk none none []).modelSpecs = none ∧
    (update_model_specs_with_latest_models ⟨none, none, []⟩ []).config.modelSpecs ≠ none := by
  refine ⟨rfl, by decide⟩

/-- Processing a spec record preserves its frame shape. -/
theorem processSpec_shape (cats : Catalog) (s : SpecRec) :
    specShape (processSpec cats s).spec = specShape s := by
  rcases s with ⟨pre, lbl, rest⟩
  rcases pre with _ | ⟨pm, prest⟩
  · rfl
  · rcases pm with _ | cur
    · rfl
    · unfold processSpec
      dsimp only
      split
      · split
        · rfl
        · split
          · cases lbl <;> rfl
          · rfl
      · split
        · rfl
        · split
          · cases lbl <;> rfl
          · rfl

/-- Processing an endpoint preserves its frame shape, including the
length of its default-model list. -/
theorem processEndpoint_shape (cats : Catalog) (e : Endpoint) :
    endpointShape (processEndpoint cats e) = endpointShape e := by
  rcases e with ⟨md, rest⟩
  cases md
  · rfl
  · simp [processEndpoint, endpointShape]

/-- Frame shapes of a processed spec list. -/
theorem specsList_shape (cats : Catalog) (l : List SpecRec) :
    ((l.map (processSpec cats)).map SpecStepResult.spec).map specShape = l.map specShape := by
  rw [List.map_map, List.map_map]
  exact List.map_congr_left fun s _ => processSpec_shape cats s

/-- Frame shapes of a processed endpoint list. -/
theorem endpointsList_shape (cats : Catalog) (l : List Endpoint) :
    (l.map (processEndpoint cats)).map endpointShape = l.map endpointShape := by
  rw [List.map_map]
  exact List.map_congr_left fun e _ => processEndpoint_shape cats e

/-- C9 (amended): running both update functions changes at most the
`model` values of preset-bearing spec records, their `modelLabel`
values, and the contents of endpoints' `models.default` lists; every
other field keeps its value and no structure is added, removed or
reordered — except that the specs updater materializes the
`modelSpecs.list` container (empty when absent). -/
theorem C9_frame_amended (config : Config) (models : List String) :
    (update_endpoints_with_latest_models
        (update_model_specs_with_latest_models config models).config models).rest
      = config.rest ∧
    ((update_endpoints_with_latest_models
        (update_model_specs_with_latest_models config models).config models).modelSpecs.map
          ModelSpecs.rest)
      = some ((config.modelSpecs.map ModelSpecs.rest).getD []) ∧
    (((update_endpoints_with_latest_models
        (update_model_specs_with_latest_models config models).config models).modelSpecs.bind
          ModelSpecs.list).map fun l => l.map specShape)
      = some (((config.modelSpecs.bind ModelSpecs.list).getD []).map specShape) ∧
    ((update_endpoints_with_latest_models
        (update_model_specs_with_latest_models config models).config models).endpointsCustom.map
          fun l => l.map endpointShape)
      = config.endpointsCustom.map fun l => l.map endpointShape := by
  rcases config with ⟨ms, eps, rest⟩
  unfold update_model_specs_with_latest_models
  dsimp only
  unfold update_endpoints_with_latest_models
  cases eps with
  | none =>
    dsimp only
    refine ⟨rfl, ?_, ?_, rfl⟩
    · cases ms <;> rfl
    · cases ms with
      | none => simp [specsList_shape]
      | some msv =>
        rcases msv with ⟨lst, msrest⟩
        cases lst <;> simp [specsList_shape, processSpec_shape]
  | some epl =>
    dsimp only
    refine ⟨rfl, ?_, ?_, ?_⟩
    · cases ms <;> rfl
    · cases ms with
      | none => simp [specsList_shape]
      | some msv =>
        rcases msv with ⟨lst, msrest⟩
        cases lst <;> simp [specsList_shape, processSpec_shape]
    · simp [endpointsList_shape, processEndpoint_shape]

end LibreChat
